import Mathlib

/-!
Shallow embedding of the RaceLock in-process lock registry
(the GlobalLock module of the repository).

The JavaScript Map from keys to lock records is modelled as an
association list kept in insertion order.  The setTimeout machinery is
made explicit: scheduling a timer allocates a fresh identifier from a
counter and appends a pending entry (identifier, captured key, delay);
clearTimeout removes the entry; a timer firing consumes the entry and
runs the callback body.  A deterministic clock value now stands for
Date.now().
-/

namespace RaceLock

/-- Caller supplied metadata: an opaque bag of key-value pairs, never
interpreted by the registry. -/
abbrev Meta := List (String × String)

/-- One lock record, mirroring the lockInfo object built by start. -/
structure LockInfo where
  timestamp : Nat
  meta : Meta
  ownerId : Option String
  timeoutId : Option Nat
deriving Repr, DecidableEq

/-- The whole registry state: the locks Map (association list in
insertion order), the scheduled-but-not-yet-fired timers
(identifier, captured key, delay), and a fresh-identifier counter. -/
structure LockState where
  locks : List (String × LockInfo)
  pending : List (Nat × String × Int)
  nextTimerId : Nat
deriving Repr, DecidableEq

/-- The registry at module initialisation: locks = new Map(). -/
def emptyState : LockState := { locks := [], pending := [], nextTimerId := 0 }

/-- locks.has(key). -/
def hasKey (locks : List (String × LockInfo)) (key : String) : Bool :=
  locks.any (fun p => p.1 == key)

/-- locks.get(key). -/
def lookupLock (locks : List (String × LockInfo)) (key : String) : Option LockInfo :=
  (locks.find? (fun p => p.1 == key)).map (fun p => p.2)

/-- start(key, timeout = 0, meta = \x7b\x7d, ownerId = null): if the key is
present return false; otherwise build a record (timeoutId null), and
when timeout > 0 schedule the expiry timer and store its identifier;
insert the record and return true. -/
def start (s : LockState) (now : Nat) (key : String) (timeout : Int := 0)
    (meta : Meta := []) (ownerId : Option String := none) : Bool × LockState :=
  if hasKey s.locks key then (false, s)
  else if timeout > 0 then
    let info : LockInfo :=
      { timestamp := now, meta := meta, ownerId := ownerId,
        timeoutId := some s.nextTimerId }
    (true, { locks := s.locks ++ [(key, info)],
             pending := s.pending ++ [(s.nextTimerId, key, timeout)],
             nextTimerId := s.nextTimerId + 1 })
  else
    let info : LockInfo :=
      { timestamp := now, meta := meta, ownerId := ownerId, timeoutId := none }
    (true, { locks := s.locks ++ [(key, info)],
             pending := s.pending,
             nextTimerId := s.nextTimerId })

/-- end(key, ownerId = null): no-op when the key is absent; refuse
(with a diagnostic, not modelled) when the caller passes a non-null
ownerId different from the stored one; otherwise clear the pending
timer if any and delete the record. -/
def end_ (s : LockState) (key : String) (ownerId : Option String := none) : LockState :=
  match lookupLock s.locks key with
  | none => s
  | some lock =>
    if ownerId ≠ none ∧ lock.ownerId ≠ ownerId then s
    else
      let pending :=
        match lock.timeoutId with
        | some tid => s.pending.filter (fun q => q.1 != tid)
        | none => s.pending
      { s with locks := s.locks.filter (fun p => p.1 != key), pending := pending }

/-- isLocked(key): pure presence check. -/
def isLocked (s : LockState) (key : String) : Bool := hasKey s.locks key

/-- getLockInfo(key): shallow copy without the timeoutId field. -/
def getLockInfo (s : LockState) (key : String) :
    Option (Nat × Meta × Option String) :=
  (lookupLock s.locks key).map (fun l => (l.timestamp, l.meta, l.ownerId))

/-- forceUnlock(key): simply calls end(key). -/
def forceUnlock (s : LockState) (key : String) : LockState := end_ s key

/-- getLockCount(): locks.size. -/
def getLockCount (s : LockState) : Nat := s.locks.length

/-- getAllLockedKeys(): Array.from(locks.keys()). -/
def getAllLockedKeys (s : LockState) : List String := s.locks.map (fun p => p.1)

/-- The locks.forEach loop of clearAllLocks: clearTimeout on every
record that holds a timer identifier. -/
def clearFold (locks : List (String × LockInfo))
    (pending : List (Nat × String × Int)) : List (Nat × String × Int) :=
  match locks with
  | [] => pending
  | p :: rest =>
    match p.2.timeoutId with
    | some tid => clearFold rest (pending.filter (fun q => q.1 != tid))
    | none => clearFold rest pending

/-- clearAllLocks(): clearTimeout on every stored timer, then locks.clear(). -/
def clearAllLocks (s : LockState) : LockState :=
  { s with locks := [], pending := clearFold s.locks s.pending }

/-- A scheduled timer firing: the setTimeout callback built inside
start.  If the timer was cancelled or already fired nothing happens;
otherwise locks.delete(capturedKey) runs and the timer is consumed. -/
def fireTimer (s : LockState) (tid : Nat) : LockState :=
  match s.pending.find? (fun q => q.1 == tid) with
  | none => s
  | some q =>
    { s with locks := s.locks.filter (fun p => p.1 != q.2.1),
             pending := s.pending.filter (fun r => r.1 != tid) }

/-- The loop of retryStart, tracking the zero-based attempt index i,
the elapsed virtual time and the list of elapsed times at which the
attempts happen.  Result: (acquired, state, attempt times, elapsed
time at return). -/
def retryStartAux (s : LockState) (baseNow : Nat) (key : String)
    (remaining i : Nat) (initialDelay : Nat) (timeout : Int)
    (meta : Meta) (ownerId : Option String) (elapsed : Nat)
    (times : List Nat) : Bool × LockState × List Nat × Nat :=
  match remaining with
  | 0 => (false, s, times, elapsed)
  | r + 1 =>
    let att := start s (baseNow + elapsed) key timeout meta ownerId
    if att.1 then (true, att.2, times ++ [elapsed], elapsed)
    else
      let delay := initialDelay * 2 ^ i
      retryStartAux att.2 baseNow key r (i + 1) initialDelay timeout meta
        ownerId (elapsed + delay) (times ++ [elapsed])

/-- retryStart(key, attempts = 5, initialDelay = 100, timeout = 5000,
meta = \x7b\x7d, ownerId = null). -/
def retryStart (s : LockState) (baseNow : Nat) (key : String)
    (attempts : Nat := 5) (initialDelay : Nat := 100) (timeout : Int := 5000)
    (meta : Meta := []) (ownerId : Option String := none) :
    Bool × LockState × List Nat × Nat :=
  retryStartAux s baseNow key attempts 0 initialDelay timeout meta ownerId 0 []

/-- The registry operations that mutate state, for stating invariants
over every reachable state. -/
inductive LockOp where
  | opStart (now : Nat) (key : String) (timeout : Int) (meta : Meta)
      (ownerId : Option String)
  | opEnd (key : String) (ownerId : Option String)
  | opForce (key : String)
  | opFire (tid : Nat)
  | opClear

/-- One mutating operation applied to the registry state. -/
def step (s : LockState) : LockOp → LockState
  | .opStart now key timeout meta ownerId => (start s now key timeout meta ownerId).2
  | .opEnd key ownerId => end_ s key ownerId
  | .opForce key => forceUnlock s key
  | .opFire tid => fireTimer s tid
  | .opClear => clearAllLocks s

/-- Well-formedness of the registry state, tying each record that
holds a timer identifier to exactly one pending timer entry and back:
keys identify records, timer identifiers identify records, pending
identifiers are distinct and fresh, each stored identifier has a
pending entry for its key, and each pending entry belongs to a live
record storing it. -/
structure WF (s : LockState) : Prop where
  keysInj : ∀ p ∈ s.locks, ∀ p' ∈ s.locks, p.1 = p'.1 → p = p'
  tidsInj : ∀ p ∈ s.locks, ∀ p' ∈ s.locks, ∀ tid : Nat,
    p.2.timeoutId = some tid → p'.2.timeoutId = some tid → p = p'
  pendNodup : (s.pending.map (fun q => q.1)).Nodup
  tidLt : ∀ p ∈ s.locks, ∀ tid : Nat, p.2.timeoutId = some tid → tid < s.nextTimerId
  pendLt : ∀ q ∈ s.pending, q.1 < s.nextTimerId
  linkFwd : ∀ p ∈ s.locks, ∀ tid : Nat, p.2.timeoutId = some tid →
    ∃ d : Int, (tid, p.1, d) ∈ s.pending
  linkBwd : ∀ q ∈ s.pending, ∃ l : LockInfo, (q.2.1, l) ∈ s.locks ∧
    l.timeoutId = some q.1

/-! ### Helper lemmas about the association-list Map -/

theorem hasKey_append (l₁ l₂ : List (String × LockInfo)) (k : String) :
    hasKey (l₁ ++ l₂) k = (hasKey l₁ k || hasKey l₂ k) := by
  simp [hasKey]

theorem lookupLock_append_fresh (locks : List (String × LockInfo)) (key : String)
    (info : LockInfo) (h : hasKey locks key = false) :
    lookupLock (locks ++ [(key, info)]) key = some info := by
  induction locks with
  | nil => simp [lookupLock]
  | cons p rest ih =>
    rw [hasKey, List.any_cons] at h
    simp only [Bool.or_eq_false_iff] at h
    rw [List.cons_append, lookupLock, List.find?_cons_of_neg _ (by simp [h.1])]
    exact ih h.2

theorem lookupLock_mem {locks : List (String × LockInfo)} {key : String}
    {l : LockInfo} (h : lookupLock locks key = some l) : (key, l) ∈ locks := by
  unfold lookupLock at h
  obtain ⟨p, hp, hpl⟩ := Option.map_eq_some'.mp h
  have hmem := List.mem_of_find?_eq_some hp
  have hkey : p.1 = key := by simpa using List.find?_some hp
  cases p with
  | mk a b =>
    simp only at hpl hkey
    subst hpl; subst hkey; exact hmem

theorem hasKey_of_lookup {locks : List (String × LockInfo)} {key : String}
    {l : LockInfo} (h : lookupLock locks key = some l) :
    hasKey locks key = true := by
  have hmem := lookupLock_mem h
  simp [hasKey, List.any_eq_true]
  exact ⟨l, hmem⟩

theorem lookup_eq_none_of_not_hasKey {locks : List (String × LockInfo)}
    {key : String} (h : hasKey locks key = false) :
    lookupLock locks key = none := by
  unfold lookupLock
  rw [List.find?_eq_none.mpr]
  · rfl
  · intro p hp hk
    have : hasKey locks key = true := by
      simp [hasKey, List.any_eq_true]
      obtain ⟨a, b⟩ := p
      have hk' : a = key := by simpa using hk
      subst hk'
      exact ⟨b, hp⟩
    rw [this] at h; exact Bool.noConfusion h

theorem hasKey_filter_self (locks : List (String × LockInfo)) (key : String) :
    hasKey (locks.filter (fun p => p.1 != key)) key = false := by
  simp only [hasKey, List.any_eq_false]
  intro p hp
  have := (List.mem_filter.mp hp).2
  simpa using this

theorem lookupLock_filter_self (locks : List (String × LockInfo)) (key : String) :
    lookupLock (locks.filter (fun p => p.1 != key)) key = none :=
  lookup_eq_none_of_not_hasKey (hasKey_filter_self locks key)

/-- The one-step unfolding of start on a key that is not present. -/
theorem start_free (s : LockState) (now : Nat) (key : String) (timeout : Int)
    (meta : Meta) (ownerId : Option String) (h : hasKey s.locks key = false) :
    start s now key timeout meta ownerId =
      (true,
       { locks := s.locks ++
           [(key, { timestamp := now, meta := meta, ownerId := ownerId,
                    timeoutId := if timeout > 0 then some s.nextTimerId else none })],
         pending := if timeout > 0 then s.pending ++ [(s.nextTimerId, key, timeout)]
                    else s.pending,
         nextTimerId := if timeout > 0 then s.nextTimerId + 1 else s.nextTimerId }) := by
  unfold start
  by_cases ht : timeout > 0 <;> simp [h, ht]

/-- The one-step unfolding of start on a key that is present. -/
theorem start_locked (s : LockState) (now : Nat) (key : String) (timeout : Int)
    (meta : Meta) (ownerId : Option String) (h : hasKey s.locks key = true) :
    start s now key timeout meta ownerId = (false, s) := by
  unfold start
  simp [h]

/-! ### Claims C1, C2, C10 on start -/

/-- Claim C1: for a key not present in the registry, start returns
true, inserts a record for the key carrying the given clock value,
metadata and owner, and afterwards isLocked returns true. -/
theorem c1_start_free_key (s : LockState) (now : Nat) (key : String)
    (timeout : Int) (meta : Meta) (ownerId : Option String)
    (h : isLocked s key = false) :
    (start s now key timeout meta ownerId).1 = true ∧
    isLocked (start s now key timeout meta ownerId).2 key = true ∧
    ∃ l, lookupLock (start s now key timeout meta ownerId).2.locks key = some l ∧
      l.timestamp = now ∧ l.meta = meta ∧ l.ownerId = ownerId := by
  have h' : hasKey s.locks key = false := h
  rw [start_free s now key timeout meta ownerId h']
  refine ⟨rfl, ?_, ?_⟩
  · simp [isLocked, hasKey_append, hasKey]
  · exact ⟨_, lookupLock_append_fresh s.locks key _ h', rfl, rfl, rfl⟩

theorem c1_start_free_key_witness :
    isLocked emptyState "a" = false ∧
    ((start emptyState 7 "a" 10 [] (some "w1")).1 = true ∧
     isLocked (start emptyState 7 "a" 10 [] (some "w1")).2 "a" = true ∧
     ∃ l, lookupLock (start emptyState 7 "a" 10 [] (some "w1")).2.locks "a" = some l ∧
       l.timestamp = 7 ∧ l.meta = [] ∧ l.ownerId = some "w1") :=
  ⟨by decide, c1_start_free_key emptyState 7 "a" 10 [] (some "w1") (by decide)⟩

/-- Claim C2: starting an already locked key returns false and leaves
the entire registry state unchanged, so the original record keeps its
timestamp, metadata and owner and no timer is scheduled. -/
theorem c2_start_locked_noop (s : LockState) (now : Nat) (key : String)
    (timeout : Int) (meta : Meta) (ownerId : Option String)
    (h : isLocked s key = true) :
    start s now key timeout meta ownerId = (false, s) :=
  start_locked s now key timeout meta ownerId h

theorem c2_start_locked_noop_witness :
    isLocked (start emptyState 0 "a" 0 [] none).2 "a" = true ∧
    start (start emptyState 0 "a" 0 [] none).2 3 "a" 50 [("x", "y")] (some "w2") =
      (false, (start emptyState 0 "a" 0 [] none).2) :=
  ⟨by decide,
   c2_start_locked_noop (start emptyState 0 "a" 0 [] none).2 3 "a" 50
     [("x", "y")] (some "w2") (by decide)⟩

/-- Claim C10: a non-positive timeout, including a negative one,
schedules no timer: the call behaves exactly like timeout 0, the
stored record has timeoutId null and the pending-timer set is
untouched. -/
theorem c10_nonpositive_timeout (s : LockState) (now : Nat) (key : String)
    (timeout : Int) (meta : Meta) (ownerId : Option String)
    (ht : timeout ≤ 0) (h : isLocked s key = false) :
    start s now key timeout meta ownerId = start s now key 0 meta ownerId ∧
    (∃ l, lookupLock (start s now key timeout meta ownerId).2.locks key = some l ∧
      l.timeoutId = none) ∧
    (start s now key timeout meta ownerId).2.pending = s.pending := by
  have h' : hasKey s.locks key = false := h
  have hnot : ¬ timeout > 0 := by omega
  rw [start_free s now key timeout meta ownerId h',
      start_free s now key 0 meta ownerId h']
  refine ⟨by simp [hnot], ⟨_, lookupLock_append_fresh s.locks key _ h', ?_⟩, by simp [hnot]⟩
  simp [hnot]

theorem c10_nonpositive_timeout_witness :
    ((-5 : Int) ≤ 0 ∧ isLocked emptyState "a" = false) ∧
    (start emptyState 2 "a" (-5) [] none = start emptyState 2 "a" 0 [] none ∧
     (∃ l, lookupLock (start emptyState 2 "a" (-5) [] none).2.locks "a" = some l ∧
       l.timeoutId = none) ∧
     (start emptyState 2 "a" (-5) [] none).2.pending = emptyState.pending) :=
  ⟨⟨by decide, by decide⟩,
   c10_nonpositive_timeout emptyState 2 "a" (-5) [] none (by decide) (by decide)⟩

/-! ### Claims C3, C5, C6, C9 on end and forceUnlock -/

/-- One-step unfolding of end on a present key. -/
theorem end_some {s : LockState} {key : String} {o : Option String}
    {l : LockInfo} (hl : lookupLock s.locks key = some l) :
    end_ s key o =
      if o ≠ none ∧ l.ownerId ≠ o then s
      else { s with locks := s.locks.filter (fun p => p.1 != key),
                    pending := match l.timeoutId with
                               | some tid => s.pending.filter (fun q => q.1 != tid)
                               | none => s.pending } := by
  unfold end_
  rw [hl]

/-- One-step unfolding of end on an absent key. -/
theorem end_none {s : LockState} {key : String} {o : Option String}
    (h : lookupLock s.locks key = none) : end_ s key o = s := by
  unfold end_
  rw [h]

/-- Claim C5: a release attempt by a non-null owner different from the
stored non-null owner is refused with no mutation at all: the record
stays, isLocked stays true, and the pending timer is untouched. -/
theorem c5_owner_mismatch_refused (s : LockState) (key : String)
    (a b : String) (l : LockInfo)
    (hl : lookupLock s.locks key = some l) (ho : l.ownerId = some a)
    (hab : b ≠ a) :
    end_ s key (some b) = s ∧
    isLocked (end_ s key (some b)) key = true ∧
    (end_ s key (some b)).pending = s.pending := by
  have heq : end_ s key (some b) = s := by
    rw [end_some hl, if_pos]
    refine ⟨by simp, ?_⟩
    rw [ho]
    simp only [ne_eq, Option.some.injEq]
    exact fun h => hab h.symm
  refine ⟨heq, ?_, by rw [heq]⟩
  rw [heq]
  exact hasKey_of_lookup hl

theorem c5_owner_mismatch_refused_witness :
    (lookupLock (start emptyState 0 "k" 0 [] (some "w1")).2.locks "k" =
       some { timestamp := 0, meta := [], ownerId := some "w1", timeoutId := none } ∧
     ("w2" : String) ≠ "w1") ∧
    (end_ (start emptyState 0 "k" 0 [] (some "w1")).2 "k" (some "w2") =
       (start emptyState 0 "k" 0 [] (some "w1")).2 ∧
     isLocked (end_ (start emptyState 0 "k" 0 [] (some "w1")).2 "k" (some "w2")) "k" = true ∧
     (end_ (start emptyState 0 "k" 0 [] (some "w1")).2 "k" (some "w2")).pending =
       (start emptyState 0 "k" 0 [] (some "w1")).2.pending) :=
  ⟨⟨by decide, by decide⟩,
   c5_owner_mismatch_refused (start emptyState 0 "k" 0 [] (some "w1")).2 "k"
     "w1" "w2"
     { timestamp := 0, meta := [], ownerId := some "w1", timeoutId := none }
     (by decide) (by decide) (by decide)⟩

/-- Claim C9: when the releasing caller omits ownerId (null), end
removes the record even when a non-null owner is stored: the ownership
guard is enforced only for a non-null caller-supplied ownerId. -/
theorem c9_null_caller_bypasses_guard (s : LockState) (key : String)
    (a : String) (l : LockInfo)
    (hl : lookupLock s.locks key = some l) (_ho : l.ownerId = some a) :
    isLocked (end_ s key none) key = false ∧
    lookupLock (end_ s key none).locks key = none := by
  rw [end_some hl, if_neg (by simp)]
  exact ⟨hasKey_filter_self s.locks key, lookupLock_filter_self s.locks key⟩

theorem c9_null_caller_bypasses_guard_witness :
    lookupLock (start emptyState 0 "k" 0 [] (some "w1")).2.locks "k" =
      some { timestamp := 0, meta := [], ownerId := some "w1", timeoutId := none } ∧
    (isLocked (end_ (start emptyState 0 "k" 0 [] (some "w1")).2 "k" none) "k" = false ∧
     lookupLock (end_ (start emptyState 0 "k" 0 [] (some "w1")).2 "k" none).locks "k" = none) :=
  ⟨by decide,
   c9_null_caller_bypasses_guard (start emptyState 0 "k" 0 [] (some "w1")).2 "k"
     "w1" { timestamp := 0, meta := [], ownerId := some "w1", timeoutId := none }
     (by decide) (by decide)⟩

/-- Claim C3, as stated, is false: for a lock stored with ownerId
null, end with the non-null owner bob is refused, so the record is not
removed and isLocked stays true — an ownership check does happen. -/
theorem c3_counterexample :
    isLocked (end_ (start emptyState 0 "k" 0 [] none).2 "k" (some "bob")) "k" = true ∧
    end_ (start emptyState 0 "k" 0 [] none).2 "k" (some "bob") =
      (start emptyState 0 "k" 0 [] none).2 := by
  constructor <;> decide

/-- Claim C3 amended: for a lock stored with ownerId null, end with a
null (omitted) caller ownerId removes the record, but end with any
non-null caller ownerId is refused with no mutation, because the guard
is keyed on the caller argument being non-null, not on the stored
owner. -/
theorem c3_null_owner_release (s : LockState) (key : String) (l : LockInfo)
    (hl : lookupLock s.locks key = some l) (ho : l.ownerId = none) :
    isLocked (end_ s key none) key = false ∧
    ∀ b : String, end_ s key (some b) = s := by
  constructor
  · rw [end_some hl, if_neg (by simp)]
    exact hasKey_filter_self s.locks key
  · intro b
    rw [end_some hl, if_pos]
    exact ⟨by simp, by rw [ho]; simp⟩

theorem c3_null_owner_release_witness :
    lookupLock (start emptyState 0 "k" 0 [] none).2.locks "k" =
      some { timestamp := 0, meta := [], ownerId := none, timeoutId := none } ∧
    (isLocked (end_ (start emptyState 0 "k" 0 [] none).2 "k" none) "k" = false ∧
     ∀ b : String, end_ (start emptyState 0 "k" 0 [] none).2 "k" (some b) =
       (start emptyState 0 "k" 0 [] none).2) :=
  ⟨by decide,
   c3_null_owner_release (start emptyState 0 "k" 0 [] none).2 "k"
     { timestamp := 0, meta := [], ownerId := none, timeoutId := none }
     (by decide) (by decide)⟩

/-- Claim C6: forceUnlock on an unlocked key is a no-op; on a locked
key it removes the record whatever the stored owner is and its pending
timer identifier no longer appears in the pending set. -/
theorem c6_forceUnlock (s : LockState) (key : String) :
    (isLocked s key = false → forceUnlock s key = s) ∧
    (∀ l, lookupLock s.locks key = some l →
      isLocked (forceUnlock s key) key = false ∧
      ∀ tid, l.timeoutId = some tid →
        (forceUnlock s key).pending.all (fun q => q.1 != tid) = true) := by
  constructor
  · intro h
    unfold forceUnlock
    exact end_none (lookup_eq_none_of_not_hasKey h)
  · intro l hl
    unfold forceUnlock
    rw [end_some hl, if_neg (by simp)]
    refine ⟨hasKey_filter_self s.locks key, ?_⟩
    intro tid htid
    rw [htid]
    simp only [List.all_eq_true]
    intro q hq
    exact (List.mem_filter.mp hq).2

theorem c6_forceUnlock_witness :
    lookupLock (start emptyState 0 "k" 9 [] (some "w1")).2.locks "k" =
      some { timestamp := 0, meta := [], ownerId := some "w1", timeoutId := some 0 } ∧
    (isLocked (forceUnlock (start emptyState 0 "k" 9 [] (some "w1")).2 "k") "k" = false ∧
     ∀ tid, ({ timestamp := 0, meta := [], ownerId := some "w1",
               timeoutId := some 0 } : LockInfo).timeoutId = some tid →
       (forceUnlock (start emptyState 0 "k" 9 [] (some "w1")).2 "k").pending.all
         (fun q => q.1 != tid) = true) :=
  ⟨by decide,
   (c6_forceUnlock (start emptyState 0 "k" 9 [] (some "w1")).2 "k").2
     { timestamp := 0, meta := [], ownerId := some "w1", timeoutId := some 0 }
     (by decide)⟩

/-! ### Claims C4 and C8 on retryStart -/

/-- Claim C4, as stated, is false: against a permanently held key,
retryStart with 3 attempts and initial delay 100 does make its
attempts at elapsed times 0, 100 and 300, but it also suspends for the
backoff delay 400 after the third failed attempt, returning at elapsed
time 700, not 300. -/
theorem c4_counterexample :
    retryStart (start emptyState 0 "k" 0 [] (some "other")).2 0 "k" 3 100 5000 [] none =
      (false, (start emptyState 0 "k" 0 [] (some "other")).2, [0, 100, 300], 700) ∧
    (retryStart (start emptyState 0 "k" 0 [] (some "other")).2 0 "k" 3 100 5000 [] none).2.2.2
      ≠ 300 := by
  constructor <;> decide

/-- Claim C4 amended: against any state in which the key is locked (so
every attempt fails and the state is never mutated), retryStart with 3
attempts and initial delay 100 makes exactly 3 attempts at elapsed
times 0, 100 and 300, and returns false only after one further backoff
delay of 400 following the final failed attempt, at elapsed time 700. -/
theorem c4_retry_held (s : LockState) (baseNow : Nat) (key : String)
    (timeout : Int) (meta : Meta) (ownerId : Option String)
    (h : isLocked s key = true) :
    retryStart s baseNow key 3 100 timeout meta ownerId =
      (false, s, [0, 100, 300], 700) := by
  have h' : hasKey s.locks key = true := h
  simp [retryStart, retryStartAux, start_locked _ _ _ _ _ _ h']

theorem c4_retry_held_witness :
    isLocked (start emptyState 0 "k" 0 [] (some "other")).2 "k" = true ∧
    retryStart (start emptyState 0 "k" 0 [] (some "other")).2 4 "k" 3 100 60 [] (some "me") =
      (false, (start emptyState 0 "k" 0 [] (some "other")).2, [0, 100, 300], 700) :=
  ⟨by decide,
   c4_retry_held (start emptyState 0 "k" 0 [] (some "other")).2 4 "k" 60 []
     (some "me") (by decide)⟩

/-- Claim C8, as stated, is false: the timeout parameter of retryStart
defaults to 5000, not 0, so a lock acquired through retryStart with
the timeout omitted does get an expiry timer: the stored record holds
a timer identifier, a pending timer with delay 5000 exists, and its
firing auto-releases the lock. -/
theorem c8_counterexample :
    (retryStart emptyState 0 "k").1 = true ∧
    lookupLock (retryStart emptyState 0 "k").2.1.locks "k" =
      some { timestamp := 0, meta := [], ownerId := none, timeoutId := some 0 } ∧
    (retryStart emptyState 0 "k").2.1.pending = [(0, "k", 5000)] ∧
    isLocked (fireTimer (retryStart emptyState 0 "k").2.1 0) "k" = false := by
  refine ⟨by decide, by decide, by decide, by decide⟩

/-- Claim C8 amended: the timeout parameter of retryStart defaults to
5000 when not supplied (the other defaults being attempts 5, initial
delay 100, empty metadata, null owner), so a lock acquired via
retryStart without an explicit timeout is scheduled to auto-expire
5000 ms after acquisition rather than never. -/
theorem c8_retry_default_timeout (s : LockState) (baseNow : Nat) (key : String)
    (h : isLocked s key = false) :
    retryStart s baseNow key = retryStart s baseNow key 5 100 5000 [] none ∧
    (retryStart s baseNow key).1 = true ∧
    ∃ l, lookupLock (retryStart s baseNow key).2.1.locks key = some l ∧
      l.timeoutId = some s.nextTimerId ∧
      (s.nextTimerId, key, (5000 : Int)) ∈ (retryStart s baseNow key).2.1.pending := by
  have h' : hasKey s.locks key = false := h
  have hstep : retryStart s baseNow key =
      (true, (start s baseNow key 5000 [] none).2, [0], 0) := by
    have hS := start_free s baseNow key 5000 [] none h'
    unfold retryStart retryStartAux
    simp only [Nat.add_zero]
    rw [hS]
    simp
  refine ⟨rfl, ?_, ?_⟩
  · rw [hstep]
  · rw [hstep, start_free s baseNow key 5000 [] none h']
    refine ⟨_, lookupLock_append_fresh s.locks key _ h', ?_, ?_⟩
    · simp
    · simp

theorem c8_retry_default_timeout_witness :
    isLocked emptyState "job" = false ∧
    (retryStart emptyState 3 "job" = retryStart emptyState 3 "job" 5 100 5000 [] none ∧
     (retryStart emptyState 3 "job").1 = true ∧
     ∃ l, lookupLock (retryStart emptyState 3 "job").2.1.locks "job" = some l ∧
       l.timeoutId = some emptyState.nextTimerId ∧
       (emptyState.nextTimerId, "job", (5000 : Int)) ∈
         (retryStart emptyState 3 "job").2.1.pending) :=
  ⟨by decide, c8_retry_default_timeout emptyState 3 "job" (by decide)⟩

/-! ### Claim C7: the timer discipline invariant -/

theorem not_hasKey_forall {locks : List (String × LockInfo)} {key : String}
    (h : hasKey locks key = false) : ∀ p ∈ locks, p.1 ≠ key := by
  intro p hp
  simp only [hasKey, List.any_eq_false] at h
  simpa using h p hp

theorem nodup_map_filter {α β : Type} (g : α → β) (f : α → Bool) (l : List α)
    (h : (l.map g).Nodup) : ((l.filter f).map g).Nodup :=
  h.sublist (List.Sublist.map g (List.filter_sublist l))

theorem find?_filter_ne (pending : List (Nat × String × Int)) (tid : Nat) :
    (pending.filter (fun r => r.1 != tid)).find? (fun q => q.1 == tid) = none := by
  rw [List.find?_eq_none]
  intro q hq
  have h := (List.mem_filter.mp hq).2
  simpa using h

theorem fireTimer_none {s : LockState} {tid : Nat}
    (h : s.pending.find? (fun q => q.1 == tid) = none) : fireTimer s tid = s := by
  unfold fireTimer
  rw [h]

theorem fireTimer_some {s : LockState} {tid : Nat} {q : Nat × String × Int}
    (h : s.pending.find? (fun r => r.1 == tid) = some q) :
    fireTimer s tid =
      { s with locks := s.locks.filter (fun p => p.1 != q.2.1),
               pending := s.pending.filter (fun r => r.1 != tid) } := by
  unfold fireTimer
  rw [h]

theorem wf_empty : WF emptyState := by
  constructor <;> simp [emptyState]

theorem wf_start (s : LockState) (now : Nat) (key : String) (timeout : Int)
    (meta : Meta) (ownerId : Option String) (h : WF s) :
    WF (start s now key timeout meta ownerId).2 := by
  by_cases hk : hasKey s.locks key = true
  · rw [start_locked s now key timeout meta ownerId hk]
    exact h
  · have hk' : hasKey s.locks key = false := by
      cases hh : hasKey s.locks key
      · rfl
      · exact absurd hh hk
    have hfresh := not_hasKey_forall hk'
    rw [start_free s now key timeout meta ownerId hk']
    by_cases ht : timeout > 0
    · simp only [ht, if_true]
      constructor <;> dsimp only
      · intro p hp p' hp' hkey
        rcases List.mem_append.mp hp with hp | hp <;>
          rcases List.mem_append.mp hp' with hp' | hp'
        · exact h.keysInj p hp p' hp' hkey
        · simp only [List.mem_singleton] at hp'
          exact absurd (by rw [hkey, hp']) (hfresh p hp)
        · simp only [List.mem_singleton] at hp
          exact absurd (by rw [← hkey, hp]) (hfresh p' hp')
        · simp only [List.mem_singleton] at hp hp'
          rw [hp, hp']
      · intro p hp p' hp' tid htid htid'
        rcases List.mem_append.mp hp with hp | hp <;>
          rcases List.mem_append.mp hp' with hp' | hp'
        · exact h.tidsInj p hp p' hp' tid htid htid'
        · simp only [List.mem_singleton] at hp'
          rw [hp'] at htid'
          simp only at htid'
          injection htid' with htid'
          have := h.tidLt p hp tid htid
          omega
        · simp only [List.mem_singleton] at hp
          rw [hp] at htid
          simp only at htid
          injection htid with htid
          have := h.tidLt p' hp' tid htid'
          omega
        · simp only [List.mem_singleton] at hp hp'
          rw [hp, hp']
      · simp only [List.map_append, List.map_cons, List.map_nil, List.nodup_append]
        refine ⟨h.pendNodup, List.nodup_singleton _, ?_⟩
        intro x hx hx'
        simp only [List.mem_singleton] at hx'
        obtain ⟨q, hq, hq1⟩ := List.mem_map.mp hx
        have := h.pendLt q hq
        omega
      · intro p hp tid htid
        rcases List.mem_append.mp hp with hp | hp
        · have := h.tidLt p hp tid htid
          omega
        · simp only [List.mem_singleton] at hp
          rw [hp] at htid
          simp only at htid
          injection htid with htid
          omega
      · intro q hq
        rcases List.mem_append.mp hq with hq | hq
        · have := h.pendLt q hq
          omega
        · simp only [List.mem_singleton] at hq
          rw [hq]
          omega
      · intro p hp tid htid
        rcases List.mem_append.mp hp with hp | hp
        · obtain ⟨d, hd⟩ := h.linkFwd p hp tid htid
          exact ⟨d, List.mem_append_left _ hd⟩
        · simp only [List.mem_singleton] at hp
          rw [hp] at htid ⊢
          simp only at htid
          injection htid with htid
          rw [← htid]
          exact ⟨timeout, List.mem_append_right _ (by simp)⟩
      · intro q hq
        rcases List.mem_append.mp hq with hq | hq
        · obtain ⟨l, hmem, htid⟩ := h.linkBwd q hq
          exact ⟨l, List.mem_append_left _ hmem, htid⟩
        · simp only [List.mem_singleton] at hq
          rw [hq]
          exact ⟨{ timestamp := now, meta := meta, ownerId := ownerId,
                   timeoutId := some s.nextTimerId },
                 List.mem_append_right _ (by simp), rfl⟩
    · simp only [ht, if_false]
      constructor <;> dsimp only
      · intro p hp p' hp' hkey
        rcases List.mem_append.mp hp with hp | hp <;>
          rcases List.mem_append.mp hp' with hp' | hp'
        · exact h.keysInj p hp p' hp' hkey
        · simp only [List.mem_singleton] at hp'
          exact absurd (by rw [hkey, hp']) (hfresh p hp)
        · simp only [List.mem_singleton] at hp
          exact absurd (by rw [← hkey, hp]) (hfresh p' hp')
        · simp only [List.mem_singleton] at hp hp'
          rw [hp, hp']
      · intro p hp p' hp' tid htid htid'
        rcases List.mem_append.mp hp with hp | hp <;>
          rcases List.mem_append.mp hp' with hp' | hp'
        · exact h.tidsInj p hp p' hp' tid htid htid'
        · simp only [List.mem_singleton] at hp'
          rw [hp'] at htid'
          simp at htid'
        · simp only [List.mem_singleton] at hp
          rw [hp] at htid
          simp at htid
        · simp only [List.mem_singleton] at hp hp'
          rw [hp, hp']
      · exact h.pendNodup
      · intro p hp tid htid
        rcases List.mem_append.mp hp with hp | hp
        · exact h.tidLt p hp tid htid
        · simp only [List.mem_singleton] at hp
          rw [hp] at htid
          simp at htid
      · exact h.pendLt
      · intro p hp tid htid
        rcases List.mem_append.mp hp with hp | hp
        · exact h.linkFwd p hp tid htid
        · simp only [List.mem_singleton] at hp
          rw [hp] at htid
          simp at htid
      · intro q hq
        obtain ⟨l, hmem, htid⟩ := h.linkBwd q hq
        exact ⟨l, List.mem_append_left _ hmem, htid⟩

theorem wf_end (s : LockState) (key : String) (o : Option String) (h : WF s) :
    WF (end_ s key o) := by
  cases hl : lookupLock s.locks key with
  | none =>
    rw [end_none hl]
    exact h
  | some l =>
    rw [end_some hl]
    by_cases hguard : o ≠ none ∧ l.ownerId ≠ o
    · rw [if_pos hguard]
      exact h
    · rw [if_neg hguard]
      have hlmem : (key, l) ∈ s.locks := lookupLock_mem hl
      cases htid₀ : l.timeoutId with
      | none =>
        constructor <;> dsimp only
        · intro p hp p' hp' hkey
          exact h.keysInj p (List.mem_filter.mp hp).1 p' (List.mem_filter.mp hp').1 hkey
        · intro p hp p' hp' tid ht ht'
          exact h.tidsInj p (List.mem_filter.mp hp).1 p' (List.mem_filter.mp hp').1 tid ht ht'
        · exact h.pendNodup
        · intro p hp tid ht
          exact h.tidLt p (List.mem_filter.mp hp).1 tid ht
        · exact h.pendLt
        · intro p hp tid ht
          exact h.linkFwd p (List.mem_filter.mp hp).1 tid ht
        · intro q hq
          obtain ⟨l', hmem', htid'⟩ := h.linkBwd q hq
          refine ⟨l', List.mem_filter.mpr ⟨hmem', ?_⟩, htid'⟩
          simp only [bne_iff_ne, ne_eq]
          intro hk
          have := h.keysInj (q.2.1, l') hmem' (key, l) hlmem (by simpa using hk)
          have hll : l' = l := congrArg Prod.snd this
          rw [hll, htid₀] at htid'
          exact Option.noConfusion htid'
      | some tid₀ =>
        constructor <;> dsimp only
        · intro p hp p' hp' hkey
          exact h.keysInj p (List.mem_filter.mp hp).1 p' (List.mem_filter.mp hp').1 hkey
        · intro p hp p' hp' tid ht ht'
          exact h.tidsInj p (List.mem_filter.mp hp).1 p' (List.mem_filter.mp hp').1 tid ht ht'
        · exact nodup_map_filter _ _ _ h.pendNodup
        · intro p hp tid ht
          exact h.tidLt p (List.mem_filter.mp hp).1 tid ht
        · intro q hq
          exact h.pendLt q (List.mem_filter.mp hq).1
        · intro p hp tid ht
          obtain ⟨hp_old, hp_ne⟩ := List.mem_filter.mp hp
          obtain ⟨d, hd⟩ := h.linkFwd p hp_old tid ht
          refine ⟨d, List.mem_filter.mpr ⟨hd, ?_⟩⟩
          simp only [bne_iff_ne, ne_eq]
          intro htt
          have := h.tidsInj p hp_old (key, l) hlmem tid ht (by rw [htid₀, htt])
          have hpk : p.1 = key := congrArg Prod.fst this
          rw [hpk] at hp_ne
          simp at hp_ne
        · intro q hq
          obtain ⟨hq_old, hq_ne⟩ := List.mem_filter.mp hq
          obtain ⟨l', hmem', htid'⟩ := h.linkBwd q hq_old
          refine ⟨l', List.mem_filter.mpr ⟨hmem', ?_⟩, htid'⟩
          simp only [bne_iff_ne, ne_eq]
          intro hk
          have := h.keysInj (q.2.1, l') hmem' (key, l) hlmem (by simpa using hk)
          have hll : l' = l := congrArg Prod.snd this
          rw [hll, htid₀] at htid'
          have : q.1 = tid₀ := by injection htid'.symm
          rw [this] at hq_ne
          simp at hq_ne

theorem wf_fire (s : LockState) (tid : Nat) (h : WF s) : WF (fireTimer s tid) := by
  cases hfind : s.pending.find? (fun q => q.1 == tid) with
  | none =>
    rw [fireTimer_none hfind]
    exact h
  | some q₀ =>
    rw [fireTimer_some hfind]
    have hq₀mem : q₀ ∈ s.pending := List.mem_of_find?_eq_some hfind
    have hq₀tid : q₀.1 = tid := by simpa using List.find?_some hfind
    obtain ⟨l₀, hl₀mem, hl₀tid⟩ := h.linkBwd q₀ hq₀mem
    constructor <;> dsimp only
    · intro p hp p' hp' hkey
      exact h.keysInj p (List.mem_filter.mp hp).1 p' (List.mem_filter.mp hp').1 hkey
    · intro p hp p' hp' tid' ht ht'
      exact h.tidsInj p (List.mem_filter.mp hp).1 p' (List.mem_filter.mp hp').1 tid' ht ht'
    · exact nodup_map_filter _ _ _ h.pendNodup
    · intro p hp tid' ht
      exact h.tidLt p (List.mem_filter.mp hp).1 tid' ht
    · intro q hq
      exact h.pendLt q (List.mem_filter.mp hq).1
    · intro p hp tid' ht
      obtain ⟨hp_old, hp_ne⟩ := List.mem_filter.mp hp
      obtain ⟨d, hd⟩ := h.linkFwd p hp_old tid' ht
      refine ⟨d, List.mem_filter.mpr ⟨hd, ?_⟩⟩
      simp only [bne_iff_ne, ne_eq]
      intro htt
      have := h.tidsInj p hp_old (q₀.2.1, l₀) hl₀mem tid' ht
        (by rw [hl₀tid, hq₀tid, htt])
      have hpk : p.1 = q₀.2.1 := congrArg Prod.fst this
      rw [hpk] at hp_ne
      simp at hp_ne
    · intro q hq
      obtain ⟨hq_old, hq_ne⟩ := List.mem_filter.mp hq
      obtain ⟨l', hmem', htid'⟩ := h.linkBwd q hq_old
      refine ⟨l', List.mem_filter.mpr ⟨hmem', ?_⟩, htid'⟩
      simp only [bne_iff_ne, ne_eq]
      intro hk
      have := h.keysInj (q.2.1, l') hmem' (q₀.2.1, l₀) hl₀mem (by simpa using hk)
      have hll : l' = l₀ := congrArg Prod.snd this
      rw [hll, hl₀tid, hq₀tid] at htid'
      have : q.1 = tid := by injection htid'.symm
      rw [this] at hq_ne
      simp at hq_ne

theorem mem_clearFold {q : Nat × String × Int} :
    ∀ (locks : List (String × LockInfo)) (init : List (Nat × String × Int)),
      q ∈ clearFold locks init →
      q ∈ init ∧ ∀ p ∈ locks, ∀ tid : Nat, p.2.timeoutId = some tid → q.1 ≠ tid := by
  intro locks
  induction locks with
  | nil =>
    intro init hq
    simp only [clearFold] at hq
    exact ⟨hq, by simp⟩
  | cons p rest ih =>
    intro init hq
    simp only [clearFold] at hq
    cases hp : p.2.timeoutId with
    | none =>
      rw [hp] at hq
      obtain ⟨h1, h2⟩ := ih init hq
      refine ⟨h1, ?_⟩
      intro p' hp' tid htid
      rcases List.mem_cons.mp hp' with rfl | hp''
      · rw [hp] at htid
        exact Option.noConfusion htid
      · exact h2 p' hp'' tid htid
    | some tid₀ =>
      rw [hp] at hq
      obtain ⟨h1, h2⟩ := ih _ hq
      have h1' := List.mem_filter.mp h1
      refine ⟨h1'.1, ?_⟩
      intro p' hp' tid htid
      rcases List.mem_cons.mp hp' with rfl | hp''
      · rw [hp] at htid
        have : tid₀ = tid := by injection htid
        subst this
        simpa using h1'.2
      · exact h2 p' hp'' tid htid

theorem clearFold_eq_nil {s : LockState} (h : WF s) :
    clearFold s.locks s.pending = [] := by
  rw [List.eq_nil_iff_forall_not_mem]
  intro q hq
  obtain ⟨hq_mem, hprop⟩ := mem_clearFold s.locks s.pending hq
  obtain ⟨l, hl_mem, hl_tid⟩ := h.linkBwd q hq_mem
  exact hprop (q.2.1, l) hl_mem q.1 hl_tid rfl

theorem wf_clear (s : LockState) (h : WF s) : WF (clearAllLocks s) := by
  have hnil : (clearAllLocks s).pending = [] := clearFold_eq_nil h
  have hlocks : (clearAllLocks s).locks = ([] : List (String × LockInfo)) := rfl
  constructor <;> simp [hlocks, hnil]

theorem countP_eq_one_of_nodup {l : List (Nat × String × Int)} {tid : Nat}
    (hnd : (l.map (fun q => q.1)).Nodup) (hmem : ∃ q ∈ l, q.1 = tid) :
    l.countP (fun q => q.1 == tid) = 1 := by
  induction l with
  | nil => simp at hmem
  | cons q rest ih =>
    simp only [List.map_cons, List.nodup_cons] at hnd
    obtain ⟨hq_not, hnd'⟩ := hnd
    rw [List.countP_cons]
    by_cases hq : q.1 = tid
    · have hzero : rest.countP (fun r => r.1 == tid) = 0 := by
        rw [List.countP_eq_zero]
        intro r hr
        simp only [beq_iff_eq]
        intro h1
        exact hq_not (List.mem_map.mpr ⟨r, hr, by rw [h1, hq]⟩)
      simp [hzero, hq]
    · have hmem' : ∃ r ∈ rest, r.1 = tid := by
        obtain ⟨r, hr, hr1⟩ := hmem
        rcases List.mem_cons.mp hr with rfl | hr'
        · exact absurd hr1 hq
        · exact ⟨r, hr', hr1⟩
      simp [ih hnd' hmem', hq]

/-- Claim C7: the timer discipline.  The empty registry is well
formed; every mutating operation (start, end, forceUnlock, a timer
firing, clearAllLocks) preserves well-formedness; in a well-formed
state every record holding a timer identifier has exactly one pending
expiry entry; a release that removes a record makes its timer inert,
so firing it afterwards is a no-op; a fired timer is consumed and can
never fire a second time; and after clearAllLocks the lock count is 0,
no timer is pending, and every previously scheduled expiry is inert. -/
theorem c7_timer_discipline :
    WF emptyState ∧
    (∀ s op, WF s → WF (step s op)) ∧
    (∀ s, WF s → ∀ p ∈ s.locks, ∀ tid : Nat, p.2.timeoutId = some tid →
      s.pending.countP (fun q => q.1 == tid) = 1) ∧
    (∀ s key o l tid, WF s → lookupLock s.locks key = some l →
      l.timeoutId = some tid → isLocked (end_ s key o) key = false →
      fireTimer (end_ s key o) tid = end_ s key o) ∧
    (∀ s tid, fireTimer (fireTimer s tid) tid = fireTimer s tid) ∧
    (∀ s, WF s → getLockCount (clearAllLocks s) = 0 ∧
      (clearAllLocks s).pending = [] ∧
      ∀ tid, fireTimer (clearAllLocks s) tid = clearAllLocks s) := by
  refine ⟨wf_empty, ?_, ?_, ?_, ?_, ?_⟩
  · intro s op h
    cases op with
    | opStart now key timeout meta ownerId =>
      exact wf_start s now key timeout meta ownerId h
    | opEnd key ownerId => exact wf_end s key ownerId h
    | opForce key => exact wf_end s key none h
    | opFire tid => exact wf_fire s tid h
    | opClear => exact wf_clear s h
  · intro s h p hp tid htid
    obtain ⟨d, hd⟩ := h.linkFwd p hp tid htid
    exact countP_eq_one_of_nodup h.pendNodup ⟨(tid, p.1, d), hd, rfl⟩
  · intro s key o l tid h hl htid hrem
    by_cases hguard : o ≠ none ∧ l.ownerId ≠ o
    · exfalso
      rw [end_some hl, if_pos hguard] at hrem
      have hk := hasKey_of_lookup hl
      unfold isLocked at hrem
      rw [hk] at hrem
      exact Bool.noConfusion hrem
    · rw [end_some hl, if_neg hguard, htid]
      exact fireTimer_none (find?_filter_ne s.pending tid)
  · intro s tid
    cases hfind : s.pending.find? (fun q => q.1 == tid) with
    | none =>
      rw [fireTimer_none hfind]
      exact fireTimer_none hfind
    | some q₀ =>
      rw [fireTimer_some hfind]
      exact fireTimer_none (find?_filter_ne s.pending tid)
  · intro s h
    have hnil : (clearAllLocks s).pending = [] := clearFold_eq_nil h
    refine ⟨rfl, hnil, ?_⟩
    intro tid
    apply fireTimer_none
    rw [hnil]
    rfl

theorem c7_timer_discipline_witness :
    WF (step emptyState (LockOp.opStart 5 "inv" 10000 [] (some "w1"))) ∧
    getLockCount
      (clearAllLocks (step emptyState (LockOp.opStart 5 "inv" 10000 [] (some "w1")))) = 0 ∧
    (clearAllLocks (step emptyState (LockOp.opStart 5 "inv" 10000 [] (some "w1")))).pending
      = [] :=
  have hwf : WF (step emptyState (LockOp.opStart 5 "inv" 10000 [] (some "w1"))) :=
    c7_timer_discipline.2.1 emptyState (LockOp.opStart 5 "inv" 10000 [] (some "w1"))
      wf_empty
  ⟨hwf, (c7_timer_discipline.2.2.2.2.2 _ hwf).1, (c7_timer_discipline.2.2.2.2.2 _ hwf).2.1⟩

end RaceLock
